import Mathlib

/-!
Verification of the spack schema-driven binary serialization engine
(versioned types, field codec, upgrade state machine) against its
natural-language specification. The Go source is shallowly embedded:
machine integers are Nat/Int with explicit wrapping, byte streams are
List Nat (each element a byte value), dynamic interface values are the
inductive Value, Go panics are Except errors converted to TypeError by
the safe wrappers, and the reflection-driven codec recursion carries
explicit fuel. IEEE floating-point and complex kinds are outside the
embedding (no claim mentions them); where the Go code derives an
allocation from the static type of a decode target, which a value-level
embedding cannot see, the embedding notes the difference in place.
-/

namespace Spack

/-! ### Byte-level helpers (encoding/binary, bufio) -/

/-- Big-endian bytes of a natural number, fixed width `w` bytes
(binary.Write with binary.BigEndian truncates to the value's width). -/
def beBytes (w : Nat) (n : Nat) : List Nat :=
  match w with
  | 0 => []
  | Nat.succ w' => beBytes w' (n / 256) ++ [n % 256]

/-- Big-endian interpretation of a byte list (binary.Read accumulator). -/
def beToNat (bs : List Nat) : Nat :=
  bs.foldl (fun acc b => acc * 256 + b) 0

/-- Two's-complement reading of a `w`-byte big-endian unsigned value. -/
def beToInt (w : Nat) (u : Nat) : Int :=
  if u < 2 ^ (8 * w - 1) then (u : Int) else (u : Int) - 2 ^ (8 * w)

/-- Go integer conversion to an unsigned width-`w`-bit value (wraps). -/
def wrapUnsigned (w : Nat) (n : Int) : Nat :=
  (n % ((2 : Int) ^ w)).toNat

/-- Go integer conversion to a signed width-`w`-bit value (wraps). -/
def wrapSigned (w : Nat) (n : Int) : Int :=
  let u := wrapUnsigned w n
  if u < 2 ^ (w - 1) then (u : Int) else (u : Int) - 2 ^ w

/-- The 2-byte big-endian encoding written by binary.Write for uint16. -/
def u16be (n : Nat) : List Nat :=
  [n / 256 % 256, n % 256]

/-- binary.Read of a uint16 from the front of a buffer. The Go callers
discard the error, leaving the zero value in place when fewer than two
bytes are available, so that case yields 0 with the buffer drained. -/
def readU16 : List Nat → Nat × List Nat
  | b0 :: b1 :: rest => (b0 * 256 + b1, rest)
  | _ => (0, [])

/-- binary.PutUvarint's loop body; `iters` carries the iteration bound
(MaxVarintLen64 = 10 suffices for any uint64) structurally, so the
definition computes by reduction. -/
def putUvarintAux : Nat → Nat → List Nat
  | 0, n => [n]
  | Nat.succ iters, n =>
    if n < 0x80 then [n]
    else (n % 0x80 + 0x80) :: putUvarintAux iters (n / 0x80)

/-- binary.PutUvarint: little-endian 7-bit groups, continuation bit in
the most significant bit of each byte. -/
def putUvarint (n : Nat) : List Nat :=
  putUvarintAux 10 n

/-- binary.ReadUvarint's loop: `c` counts the iterations that remain of
the ten allowed by MaxVarintLen64; the final-byte overflow check fires
on the tenth byte. Accumulation wraps at 64 bits as uint64 does. -/
def readUvarintGo (x s : Nat) : Nat → List Nat → Except String (Nat × List Nat)
  | _, [] => .error "Couldn't read length: EOF"
  | 0, _ => .error "binary: varint overflows a 64-bit integer"
  | Nat.succ c, b :: bs =>
    if b < 0x80 then
      if c == 0 && decide (b > 1) then
        .error "binary: varint overflows a 64-bit integer"
      else
        .ok ((x + b * 2 ^ s) % 2 ^ 64, bs)
    else
      readUvarintGo ((x + b % 0x80 * 2 ^ s) % 2 ^ 64) (s + 7) c bs

/-- binary.ReadUvarint from the front of a byte list. -/
def readUvarint (bs : List Nat) : Except String (Nat × List Nat) :=
  readUvarintGo 0 0 10 bs

/-! ### UTF-8 (Go strings are UTF-8 byte sequences) -/

/-- UTF-8 bytes of one code point (Go's utf8.EncodeRune). -/
def charUtf8 (c : Char) : List Nat :=
  let n := c.toNat
  if n < 0x80 then [n]
  else if n < 0x800 then [0xC0 + n / 0x40, 0x80 + n % 0x40]
  else if n < 0x10000 then
    [0xE0 + n / 0x1000, 0x80 + n / 0x40 % 0x40, 0x80 + n % 0x40]
  else
    [0xF0 + n / 0x40000, 0x80 + n / 0x1000 % 0x40,
     0x80 + n / 0x40 % 0x40, 0x80 + n % 0x40]

/-- UTF-8 bytes of a string (what writer.WriteString emits; len(str) in
Go is the length of this list). -/
def strUtf8 (s : String) : List Nat :=
  s.data.foldr (fun c acc => charUtf8 c ++ acc) []

/-- Whether a byte is a UTF-8 continuation byte. -/
def isCont (b : Nat) : Bool :=
  0x80 ≤ b && b ≤ 0xBF

/-- The Unicode replacement character utf8.RuneError. -/
def runeError : Char := Char.ofNat 0xFFFD

/-- bufio.ReadRune / utf8.DecodeRune: one code point, its encoded size,
and the remaining bytes; malformed input yields U+FFFD with size 1. -/
def readRune : List Nat → Except String (Char × Nat × List Nat)
  | [] => .error "Rune read error: EOF"
  | b0 :: bs =>
    if b0 < 0x80 then .ok (Char.ofNat b0, 1, bs)
    else if b0 < 0xC2 then .ok (runeError, 1, bs)
    else if b0 ≤ 0xDF then
      match bs with
      | b1 :: bs' =>
        if isCont b1 then
          .ok (Char.ofNat ((b0 - 0xC0) * 0x40 + (b1 - 0x80)), 2, bs')
        else .ok (runeError, 1, bs)
      | [] => .ok (runeError, 1, bs)
    else if b0 ≤ 0xEF then
      match bs with
      | b1 :: b2 :: bs' =>
        if (if b0 == 0xE0 then 0xA0 ≤ b1 && b1 ≤ 0xBF
            else if b0 == 0xED then 0x80 ≤ b1 && b1 ≤ 0x9F
            else isCont b1) && isCont b2 then
          .ok (Char.ofNat ((b0 - 0xE0) * 0x1000 + (b1 - 0x80) * 0x40 + (b2 - 0x80)),
               3, bs')
        else .ok (runeError, 1, bs)
      | _ => .ok (runeError, 1, bs)
    else if b0 ≤ 0xF4 then
      match bs with
      | b1 :: b2 :: b3 :: bs' =>
        if (if b0 == 0xF0 then 0x90 ≤ b1 && b1 ≤ 0xBF
            else if b0 == 0xF4 then 0x80 ≤ b1 && b1 ≤ 0x8F
            else isCont b1) && isCont b2 && isCont b3 then
          .ok (Char.ofNat ((b0 - 0xF0) * 0x40000 + (b1 - 0x80) * 0x1000 +
                 (b2 - 0x80) * 0x40 + (b3 - 0x80)), 4, bs')
        else .ok (runeError, 1, bs)
      | _ => .ok (runeError, 1, bs)
    else .ok (runeError, 1, bs)

/-- The string-decoding loop: read runes until `byteCount < byteLen`
fails. Each rune consumes at least one byte, so the iteration count is
bounded by `byteLen`; `iters` carries that bound structurally. -/
def readRunes (iters byteLen byteCount : Nat) (bs : List Nat) :
    Except String (List Char × List Nat) :=
  match iters with
  | 0 =>
    if byteCount < byteLen then .error "rune loop iteration bound exceeded"
    else .ok ([], bs)
  | Nat.succ iters' =>
    if byteCount < byteLen then
      match readRune bs with
      | .error e => .error e
      | .ok (c, n, bs') =>
        match readRunes iters' byteLen (byteCount + n) bs' with
        | .error e => .error e
        | .ok (cs, bs'') => .ok (c :: cs, bs'')
    else .ok ([], bs)

/-! ### Schema nodes (fieldType, TypeSpec) -/

/-- reflect.Kind numbers used by the schema (Go reflect package). -/
def kBool : Nat := 1
def kInt8 : Nat := 3
def kInt16 : Nat := 4
def kInt32 : Nat := 5
def kInt64 : Nat := 6
def kUint8 : Nat := 8
def kUint16 : Nat := 9
def kUint32 : Nat := 10
def kUint64 : Nat := 11
def kFloat32 : Nat := 13
def kFloat64 : Nat := 14
def kComplex64 : Nat := 15
def kComplex128 : Nat := 16
def kMap : Nat := 21
def kPtr : Nat := 22
def kSlice : Nat := 23
def kString : Nat := 24
def kStruct : Nat := 25

/-- const IGNORED_FIELD reflect.Kind = 254 -/
def IGNORED_FIELD : Nat := 254

/-- const STRUCT_REFERENCE reflect.Kind = 255 -/
def STRUCT_REFERENCE : Nat := 255

/-- A schema node: kind, child nodes, field label, struct identity key. -/
inductive fieldType where
  | mk (Kind : Nat) (Elem : List fieldType) (Label : String) (StructName : String)
deriving Repr

def fieldType.Kind : fieldType → Nat
  | .mk k _ _ _ => k

def fieldType.Elem : fieldType → List fieldType
  | .mk _ e _ _ => e

def fieldType.Label : fieldType → String
  | .mk _ _ l _ => l

def fieldType.StructName : fieldType → String
  | .mk _ _ _ s => s

/-- The struct table: struct identity key to struct body node. -/
def structMap := List (String × fieldType)

/-- Go map lookup in the struct table. -/
def structMapFind (m : structMap) (k : String) : Option fieldType :=
  match m with
  | [] => none
  | p :: rest => if p.1 == k then some p.2 else structMapFind rest k

/-- A schema: struct table plus top node. -/
structure TypeSpec where
  Structs : structMap
  Top : fieldType

/-- The kinds handled by the fixed-size arm of the codec switch. -/
def isFixedSizeKind (k : Nat) : Bool :=
  k == kInt8 || k == kInt16 || k == kInt32 || k == kInt64 ||
  k == kUint8 || k == kUint16 || k == kUint32 || k == kUint64 ||
  k == kFloat32 || k == kFloat64 || k == kComplex64 || k == kComplex128

/-! ### Dynamic values (Go interface values seen by the codec) -/

/-- A dynamic value as the reflection-driven codec sees one. `vStruct`
carries the struct identity key and the field values in declaration
order; `vMap` is a string-keyed attribute map in insertion order;
`vInt` is Go's plain int (the widening case in encodeFixedSize);
`vNil` is a nil interface value. Pointers are flattened: the codec
always passes pointer cells and immediately reflect.Indirects them, so
a Go `*T` cell holding a zero `T` appears here as the `T` value itself,
and `vPtr` models the pointer-typed fields the Ptr schema kind walks. -/
inductive Value where
  | vBool (b : Bool)
  | vString (s : String)
  | vUint8 (n : Nat)
  | vUint16 (n : Nat)
  | vUint32 (n : Nat)
  | vUint64 (n : Nat)
  | vInt8 (n : Int)
  | vInt16 (n : Int)
  | vInt32 (n : Int)
  | vInt64 (n : Int)
  | vInt (n : Int)
  | vSlice (elems : List Value)
  | vMap (entries : List (String × Value))
  | vStruct (name : String) (fields : List Value)
  | vPtr (inner : Option Value)
  | vNil
deriving Repr

/-- Go map read `m[k]` on an attribute map (missing key handled by the
caller; iteration order never matters for the embedded operations). -/
def mapLookup (m : List (String × Value)) (k : String) : Option Value :=
  match m with
  | [] => none
  | p :: rest => if p.1 == k then some p.2 else mapLookup rest k

/-- Go map assignment `m[k] = v` on an attribute map. -/
def mapSet (m : List (String × Value)) (k : String) (v : Value) :
    List (String × Value) :=
  if m.any (fun p => p.1 == k) then
    m.map (fun p => if p.1 == k then (k, v) else p)
  else m ++ [(k, v)]

/-- Go `delete(m, k)` on an attribute map. -/
def mapDelete (m : List (String × Value)) (k : String) : List (String × Value) :=
  m.filter (fun p => !(p.1 == k))

mutual

/-- reflect.New(reflect.TypeOf(x)) dereferenced: the zero value of the
dynamic type of `x` (zero slices and maps are nil, zero pointers nil). -/
def zeroValue : Value → Value
  | .vBool _ => .vBool false
  | .vString _ => .vString ""
  | .vUint8 _ => .vUint8 0
  | .vUint16 _ => .vUint16 0
  | .vUint32 _ => .vUint32 0
  | .vUint64 _ => .vUint64 0
  | .vInt8 _ => .vInt8 0
  | .vInt16 _ => .vInt16 0
  | .vInt32 _ => .vInt32 0
  | .vInt64 _ => .vInt64 0
  | .vInt _ => .vInt 0
  | .vSlice _ => .vSlice []
  | .vMap _ => .vMap []
  | .vStruct n fs => .vStruct n (zeroValues fs)
  | .vPtr _ => .vPtr none
  | .vNil => .vNil

/-- Zero values of a list of field values. -/
def zeroValues : List Value → List Value
  | [] => []
  | v :: vs => zeroValue v :: zeroValues vs
end

/-- createMapValue: the per-kind decode cell allocated when decoding a
struct into an attribute map (and for interface-typed containers). The
Go cells for float and complex kinds are outside the embedding. -/
def createMapValue : fieldType → Except String Value
  | .mk k elems _ _ =>
    if k == kInt8 then .ok (.vInt8 0)
    else if k == kInt16 then .ok (.vInt16 0)
    else if k == kInt32 then .ok (.vInt32 0)
    else if k == kInt64 then .ok (.vInt64 0)
    else if k == kUint8 then .ok (.vUint8 0)
    else if k == kUint16 then .ok (.vUint16 0)
    else if k == kUint32 then .ok (.vUint32 0)
    else if k == kUint64 then .ok (.vUint64 0)
    else if k == kFloat32 || k == kFloat64 || k == kComplex64 || k == kComplex128 then
      .error "floating-point cells are outside this embedding"
    else if k == kBool then .ok (.vBool false)
    else if k == kString then .ok (.vString "")
    else if k == kSlice then .ok (.vSlice [])
    else if k == kMap then
      -- the Go cell is a map[interface{}]interface{}; the embedding's
      -- attribute maps are string-keyed
      .ok (.vMap [])
    else if k == kPtr then
      match elems with
      | e :: _ => createMapValue e
      | [] => .error "index out of range"
    else if k == STRUCT_REFERENCE then .ok (.vMap [])
    else .error "Can't create map value"

/-- The typed error surfaced by the safe wrappers and the registry. -/
structure TypeError where
  Message : String
deriving Repr, DecidableEq

/-! ### Field codec (part encodeFieldInner / decodeFieldInner) -/

/-- Child node access `ft.Elem[i]` (a Go index panic when absent). -/
def elemAt (ft : fieldType) (i : Nat) : Except String fieldType :=
  match ft.Elem.get? i with
  | some e => .ok e
  | none => .error "index out of range"

/-- binary.Read into a fixed-size target: the width comes from the
target cell's own type, exactly as binary.Read derives it from the
pointer it receives; float and complex targets are outside the
embedding. -/
def binaryReadInto (field : Value) (bs : List Nat) :
    Except String (Value × List Nat) :=
  let go : Nat → (Nat → Value) → Except String (Value × List Nat) :=
    fun w mk =>
      if bs.length < w then .error "Fixed size decode error: unexpected EOF"
      else .ok (mk (beToNat (bs.take w)), bs.drop w)
  match field with
  | .vUint8 _ => go 1 .vUint8
  | .vUint16 _ => go 2 .vUint16
  | .vUint32 _ => go 4 .vUint32
  | .vUint64 _ => go 8 .vUint64
  | .vInt8 _ => go 1 (fun u => .vInt8 (beToInt 1 u))
  | .vInt16 _ => go 2 (fun u => .vInt16 (beToInt 2 u))
  | .vInt32 _ => go 4 (fun u => .vInt32 (beToInt 4 u))
  | .vInt64 _ => go 8 (fun u => .vInt64 (beToInt 8 u))
  | _ => .error "Fixed size decode error: invalid type"

/-- convertIntToFixedSize: narrows a generic Go int to the declared
width by wrapping, leaving the value unchanged for other kinds. -/
def convertIntToFixedSize (n : Int) (kind : Nat) : Value :=
  if kind == kInt8 then .vInt8 (wrapSigned 8 n)
  else if kind == kInt16 then .vInt16 (wrapSigned 16 n)
  else if kind == kInt32 then .vInt32 (wrapSigned 32 n)
  else if kind == kInt64 then .vInt64 (wrapSigned 64 n)
  else if kind == kUint8 then .vUint8 (wrapUnsigned 8 n)
  else if kind == kUint16 then .vUint16 (wrapUnsigned 16 n)
  else if kind == kUint32 then .vUint32 (wrapUnsigned 32 n)
  else if kind == kUint64 then .vUint64 (wrapUnsigned 64 n)
  else .vInt n

/-- binary.Write of a fixed-size value: width from the value's type. -/
def binaryWriteValue : Value → Except String (List Nat)
  | .vUint8 n => .ok (beBytes 1 n)
  | .vUint16 n => .ok (beBytes 2 n)
  | .vUint32 n => .ok (beBytes 4 n)
  | .vUint64 n => .ok (beBytes 8 n)
  | .vInt8 n => .ok (beBytes 1 (wrapUnsigned 8 n))
  | .vInt16 n => .ok (beBytes 2 (wrapUnsigned 16 n))
  | .vInt32 n => .ok (beBytes 4 (wrapUnsigned 32 n))
  | .vInt64 n => .ok (beBytes 8 (wrapUnsigned 64 n))
  | _ => .error "Fixed size encode error: invalid type"

/-- encodeFixedSize: widens a generic int to the declared kind first
(Go additionally narrows generic float64 values, which are outside the
embedding), then writes big-endian. -/
def encodeFixedSize (field : Value) (kind : Nat) : Except String (List Nat) :=
  let field' := match field with
    | .vInt n => convertIntToFixedSize n kind
    | f => f
  binaryWriteValue field'

/-- The map-target arm loop of the struct-reference decode: one fresh
cell per non-ignored field, decoded then stored under the field's
label; `dec` is the field decoder (the recursion at one less fuel).
(The Go `fieldVal == nil` branch is dead: createMapValue never returns
nil.) -/
def decodeStructIntoMap
    (dec : Value → fieldType → List Nat → Except String (Value × List Nat)) :
    List fieldType → List (String × Value) → List Nat →
    Except String (List (String × Value) × List Nat)
  | [], m, bs => .ok (m, bs)
  | fieldFt :: fts, m, bs =>
    if fieldFt.Kind == IGNORED_FIELD then
      decodeStructIntoMap dec fts m bs
    else
      match createMapValue fieldFt with
      | .error e => .error e
      | .ok cell =>
        match dec cell fieldFt bs with
        | .error e => .error e
        | .ok (v, bs') =>
          decodeStructIntoMap dec fts (mapSet m fieldFt.Label v) bs'

/-- The concrete-struct arm of the struct-reference decode: positional
walk over the struct body's nodes, skipping ignored fields. -/
def decodeStructFields
    (dec : Value → fieldType → List Nat → Except String (Value × List Nat)) :
    List fieldType → List Value → List Nat →
    Except String (List Value × List Nat)
  | [], fields, bs => .ok (fields, bs)
  | fieldFt :: fts, fields, bs =>
    if fieldFt.Kind == IGNORED_FIELD then
      match fields with
      | [] =>
        match decodeStructFields dec fts [] bs with
        | .error e => .error e
        | .ok (_, bs') => .ok ([], bs')
      | f :: fs =>
        match decodeStructFields dec fts fs bs with
        | .error e => .error e
        | .ok (fs', bs') => .ok (f :: fs', bs')
    else
      match fields with
      | [] => .error "reflect: Field index out of range"
      | f :: fs =>
        match dec f fieldFt bs with
        | .error e => .error e
        | .ok (f', bs') =>
          match decodeStructFields dec fts fs bs' with
          | .error e => .error e
          | .ok (fs', bs'') => .ok (f' :: fs', bs'')

/-- The slice-decode loop. Go allocates reflect.New(elemt) for concrete
element types and a createMapValue cell for interface{} elements; the
schema-derived cell used here coincides whenever the target matches the
spec, except that a concrete struct element would be a struct rather
than an attribute map (no claim decodes a slice). -/
def decodeSliceElems
    (dec : Value → fieldType → List Nat → Except String (Value × List Nat))
    (eft : fieldType) :
    Nat → List Nat → Except String (List Value × List Nat)
  | 0, bs => .ok ([], bs)
  | Nat.succ count, bs =>
    match createMapValue eft with
    | .error e => .error e
    | .ok cell =>
      match dec cell eft bs with
      | .error e => .error e
      | .ok (v, bs') =>
        match decodeSliceElems dec eft count bs' with
        | .error e => .error e
        | .ok (vs, bs'') => .ok (v :: vs, bs'')

/-- The map-decode loop (key cell, value cell, SetMapIndex). Go maps
admit arbitrary key types; the embedding's attribute maps are
string-keyed, and no claim decodes a map node. -/
def decodeMapPairs
    (dec : Value → fieldType → List Nat → Except String (Value × List Nat))
    (kft vft : fieldType) :
    Nat → List (String × Value) → List Nat →
    Except String (List (String × Value) × List Nat)
  | 0, m, bs => .ok (m, bs)
  | Nat.succ count, m, bs =>
    match createMapValue kft with
    | .error e => .error e
    | .ok kcell =>
      match dec kcell kft bs with
      | .error e => .error e
      | .ok (kv, bs') =>
        match kv with
        | .vString k =>
          match createMapValue vft with
          | .error e => .error e
          | .ok vcell =>
            match dec vcell vft bs' with
            | .error e => .error e
            | .ok (vv, bs'') =>
              decodeMapPairs dec kft vft count (mapSet m k vv) bs''
        | _ => .error "map keys other than strings are outside this embedding"

/-- decodeFieldInner from the source: one switch on the node kind,
reading from the byte list and returning the updated target value plus
the remaining bytes. `fuel` bounds the recursion (the Go recursion is
bounded by the input and the host stack). Pointer cells are flattened,
so reflect.Indirect on a cell is the identity here and explicit only
where a `vPtr` value can reach a struct-reference node. -/
def decodeFieldInner : Nat → Value → fieldType → structMap → List Nat →
    Except String (Value × List Nat)
  | 0, _, _, _, _ => .error "recursion limit exceeded"
  | Nat.succ fuel, field, ft, structs, bs =>
    if isFixedSizeKind ft.Kind then
      binaryReadInto field bs
    else if ft.Kind == kBool then
      match bs with
      | [] => .error "Bool decode error: EOF"
      | b :: rest =>
        if b == 0 then
          match field with
          | .vBool _ => .ok (.vBool false, rest)
          | _ => .error "interface conversion: target is not a bool pointer"
        else if b == 1 then
          match field with
          | .vBool _ => .ok (.vBool true, rest)
          | _ => .error "interface conversion: target is not a bool pointer"
        else .error ("Bool byte neither 0 nor 1: " ++ toString b)
    else if ft.Kind == kString then
      match readUvarint bs with
      | .error e => .error ("Couldn't read string length: " ++ e)
      | .ok (byteLen, rest) =>
        match readRunes byteLen byteLen 0 rest with
        | .error e => .error e
        | .ok (runes, rest') =>
          match field with
          | .vString _ => .ok (.vString (String.mk runes), rest')
          | _ => .error "interface conversion: target is not a string pointer"
    else if ft.Kind == kSlice then
      match field with
      | .vSlice _ =>
        match readUvarint bs with
        | .error e => .error ("Couldn't read slice length: " ++ e)
        | .ok (elemCount, rest) =>
          match elemAt ft 0 with
          | .error e => .error e
          | .ok eft =>
            match decodeSliceElems
                (fun c f b => decodeFieldInner fuel c f structs b) eft elemCount rest with
            | .error e => .error e
            | .ok (elems, rest') => .ok (.vSlice elems, rest')
      | _ => .error "reflect: target is not a slice pointer"
    else if ft.Kind == kMap then
      match field with
      | .vMap m =>
        match readUvarint bs with
        | .error e => .error ("Couldn't read key count: " ++ e)
        | .ok (keyCount, rest) =>
          match elemAt ft 0, elemAt ft 1 with
          | .ok kft, .ok vft =>
            match decodeMapPairs
                (fun c f b => decodeFieldInner fuel c f structs b) kft vft keyCount m rest with
            | .error e => .error e
            | .ok (m', rest') => .ok (.vMap m', rest')
          | .error e, _ => .error e
          | _, .error e => .error e
      | _ => .error "reflect: target is not a map pointer"
    else if ft.Kind == kPtr then
      match bs with
      | [] => .error "Couldn't read ptr nil byte: EOF"
      | c :: rest =>
        if c == 0 then .ok (field, rest)
        else
          match field with
          | .vPtr (some inner) =>
            match elemAt ft 0 with
            | .error e => .error e
            | .ok eft =>
              match decodeFieldInner fuel inner eft structs rest with
              | .error e => .error e
              | .ok (inner', rest') => .ok (.vPtr (some inner'), rest')
          | .vPtr none =>
            -- Go allocates reflect.New(target.Type().Elem()) here; the
            -- pointee's static type is not visible to a value-level
            -- embedding, so this arm is left unmodelled (no claim
            -- decodes through a pointer node).
            .error "pointee allocation not modelled"
          | _ => .error "reflect: IsNil of non-nilable value"
    else if ft.Kind == IGNORED_FIELD then
      .ok (field, bs)
    else if ft.Kind == STRUCT_REFERENCE then
      match structMapFind structs ft.StructName with
      | none => .error "nil struct body"
      | some structFt =>
        match field with
        | .vMap m =>
          match decodeStructIntoMap
              (fun c f b => decodeFieldInner fuel c f structs b) structFt.Elem m bs with
          | .error e => .error e
          | .ok (m', rest) => .ok (.vMap m', rest)
        | .vStruct name fields =>
          if name == ft.StructName then
            match decodeStructFields
                (fun c f b => decodeFieldInner fuel c f structs b) structFt.Elem fields bs with
            | .error e => .error e
            | .ok (fields', rest) => .ok (.vStruct name fields', rest)
          else .error ("Incompatible structs: " ++ name ++ ", " ++ ft.StructName)
        | .vPtr (some inner) =>
          -- reflect.Indirect of a non-nil pointer target
          match decodeFieldInner fuel inner ft structs bs with
          | .error e => .error e
          | .ok (inner', rest) => .ok (.vPtr (some inner'), rest)
        | _ => .error "Incompatible structs: target is not a struct or map"
    else .error ("Unsupported decode kind " ++ toString ft.Kind)

/-- The map-source arm of the struct-reference encode: non-ignored
fields looked up by label (a missing key reads as a nil interface);
`enc` is the field encoder (the recursion at one less fuel). -/
def encodeStructMapFields (enc : Value → fieldType → Except String (List Nat)) :
    List fieldType → List (String × Value) → Except String (List Nat)
  | [], _ => .ok []
  | fieldFt :: fts, m =>
    if fieldFt.Kind == IGNORED_FIELD then
      encodeStructMapFields enc fts m
    else
      match enc ((mapLookup m fieldFt.Label).getD .vNil) fieldFt with
      | .error e => .error e
      | .ok bs =>
        match encodeStructMapFields enc fts m with
        | .error e => .error e
        | .ok rest => .ok (bs ++ rest)

/-- The concrete-struct arm of the struct-reference encode: positional
walk, ignored fields contributing no bytes. -/
def encodeStructFields (enc : Value → fieldType → Except String (List Nat)) :
    List fieldType → List Value → Except String (List Nat)
  | [], _ => .ok []
  | fieldFt :: fts, fields =>
    if fieldFt.Kind == IGNORED_FIELD then
      match fields with
      | [] => encodeStructFields enc fts []
      | _ :: fs => encodeStructFields enc fts fs
    else
      match fields with
      | [] => .error "reflect: Field index out of range"
      | f :: fs =>
        match enc f fieldFt with
        | .error e => .error e
        | .ok bs =>
          match encodeStructFields enc fts fs with
          | .error e => .error e
          | .ok rest => .ok (bs ++ rest)

/-- The slice-encode loop. -/
def encodeSliceElems (enc : Value → fieldType → Except String (List Nat))
    (eft : fieldType) : List Value → Except String (List Nat)
  | [] => .ok []
  | v :: vs =>
    match enc v eft with
    | .error e => .error e
    | .ok bs =>
      match encodeSliceElems enc eft vs with
      | .error e => .error e
      | .ok rest => .ok (bs ++ rest)

/-- The map-encode loop: key then value per entry. -/
def encodeMapPairs (enc : Value → fieldType → Except String (List Nat))
    (kft vft : fieldType) : List (String × Value) → Except String (List Nat)
  | [] => .ok []
  | (k, v) :: rest =>
    match enc (.vString k) kft with
    | .error e => .error e
    | .ok kbs =>
      match enc v vft with
      | .error e => .error e
      | .ok vbs =>
        match encodeMapPairs enc kft vft rest with
        | .error e => .error e
        | .ok more => .ok (kbs ++ vbs ++ more)

/-- encodeFieldInner from the source: one switch on the node kind,
emitting bytes for the given value. -/
def encodeFieldInner : Nat → Value → fieldType → structMap →
    Except String (List Nat)
  | 0, _, _, _ => .error "recursion limit exceeded"
  | Nat.succ fuel, field, ft, structs =>
    if isFixedSizeKind ft.Kind then
      encodeFixedSize field ft.Kind
    else if ft.Kind == kBool then
      match field with
      | .vBool b => .ok (if b then [1] else [0])
      | _ => .error "interface conversion: value is not a bool"
    else if ft.Kind == kString then
      match field with
      | .vString s =>
        let bytes := strUtf8 s
        .ok (putUvarint bytes.length ++ bytes)
      | _ => .error "interface conversion: value is not a string"
    else if ft.Kind == kSlice then
      match field with
      | .vSlice elems =>
        match elemAt ft 0 with
        | .error e => .error e
        | .ok eft =>
          match encodeSliceElems
              (fun v f => encodeFieldInner fuel v f structs) eft elems with
          | .error e => .error e
          | .ok body => .ok (putUvarint elems.length ++ body)
      | _ => .error "reflect: Len of non-slice value"
    else if ft.Kind == kMap then
      match field with
      | .vMap entries =>
        match elemAt ft 0, elemAt ft 1 with
        | .ok kft, .ok vft =>
          -- Go walks val.MapKeys() in unspecified order; the embedding
          -- walks the entries in insertion order
          match encodeMapPairs
              (fun v f => encodeFieldInner fuel v f structs) kft vft entries with
          | .error e => .error e
          | .ok body => .ok (putUvarint entries.length ++ body)
        | .error e, _ => .error e
        | _, .error e => .error e
      | _ => .error "reflect: Len of non-map value"
    else if ft.Kind == kPtr then
      match field with
      | .vNil => .ok [0]
      | .vPtr none => .ok [0]
      | .vPtr (some inner) =>
        match elemAt ft 0 with
        | .error e => .error e
        | .ok eft =>
          match encodeFieldInner fuel inner eft structs with
          | .error e => .error e
          | .ok body => .ok (1 :: body)
      | _ => .error "reflect: IsNil of non-nilable value"
    else if ft.Kind == IGNORED_FIELD then
      .ok []
    else if ft.Kind == STRUCT_REFERENCE then
      match structMapFind structs ft.StructName with
      | none => .error "nil struct body"
      | some structFt =>
        match field with
        | .vMap m =>
          encodeStructMapFields
            (fun v f => encodeFieldInner fuel v f structs) structFt.Elem m
        | .vPtr (some (.vMap m)) =>
          encodeStructMapFields
            (fun v f => encodeFieldInner fuel v f structs) structFt.Elem m
        | .vStruct name fields =>
          if name == ft.StructName then
            encodeStructFields
              (fun v f => encodeFieldInner fuel v f structs) structFt.Elem fields
          else .error ("Incompatible structs: " ++ name ++ ", " ++ ft.StructName)
        | .vPtr (some (.vStruct name fields)) =>
          if name == ft.StructName then
            encodeStructFields
              (fun v f => encodeFieldInner fuel v f structs) structFt.Elem fields
          else .error ("Incompatible structs: " ++ name ++ ", " ++ ft.StructName)
        | _ => .error "Incompatible structs: value is not a struct or map"
    else .error ("Unsupported encode kind " ++ toString ft.Kind)

/-- SafeEncodeField: runs the encoder and converts any panic into the
typed error ("Encoding failed: ..."). -/
def SafeEncodeField (fuel : Nat) (field : Value) (ts : TypeSpec) :
    Except TypeError (List Nat) :=
  match encodeFieldInner fuel field ts.Top ts.Structs with
  | .error e => .error ⟨"Encoding failed: " ++ e⟩
  | .ok bs => .ok bs

/-- SafeDecodeField: runs the decoder and converts any panic into the
typed error ("Decoding failed: ..."). -/
def SafeDecodeField (fuel : Nat) (field : Value) (ts : TypeSpec) (bs : List Nat) :
    Except TypeError Value :=
  match decodeFieldInner fuel field ts.Top ts.Structs bs with
  | .error e => .error ⟨"Decoding failed: " ++ e⟩
  | .ok (v, _) => .ok v

/-! ### Versioned-type registry (spack.go) -/

/-- An upgrade function: attribute map in, attribute map out, or an
error. (The Go type is func(interface{}) (interface{}, error).) -/
def UpgradeFunc := Value → Except String Value

/-- One registered version of a logical type. -/
structure Version where
  Version : Nat
  Spec : TypeSpec
  Exemplar : Option Value
  Upgrader : Option UpgradeFunc

/-- A logical type: name, stable tag, versions sorted descending by
version number (sort.Sort with Less comparing Version downward). -/
structure VersionedType where
  Name : String
  Tag : Nat
  Versions : List Version
  Dirty : Bool := false

/-- sort.Search's binary-search loop: smallest index in [i, j) at which
the (monotone) predicate holds, or j. The loop shrinks j - i by at
least one per iteration, so `iters` = the initial width carries the
bound structurally and the definition computes by reduction. -/
def sortSearchGo (f : Nat → Bool) : Nat → Nat → Nat → Nat
  | 0, i, _ => i
  | Nat.succ iters, i, j =>
    if i < j then
      if f ((i + j) / 2) then sortSearchGo f iters i ((i + j) / 2)
      else sortSearchGo f iters ((i + j) / 2 + 1) j
    else i

/-- sort.Search over [0, n). -/
def sortSearch (n : Nat) (f : Nat → Bool) : Nat :=
  sortSearchGo f n 0 n

/-- The closure passed to sort.Search by getVersion:
`vt.Versions[i].Version <= v` (never called out of range by Search). -/
def getVersionCmp (vt : VersionedType) (v : Nat) (i : Nat) : Bool :=
  match vt.Versions.get? i with
  | some ver => decide (ver.Version ≤ v)
  | none => false

/-- getVersion: binary search over the descending versions list,
returning the index and the record when the version number matches. -/
def getVersionIdx (vt : VersionedType) (v : Nat) : Option (Nat × Version) :=
  let idx := sortSearch vt.Versions.length (getVersionCmp vt v)
  match vt.Versions.get? idx with
  | some ver => if ver.Version == v then some (idx, ver) else none
  | none => none

/-- GetVersion: the record only. -/
def GetVersion (vt : VersionedType) (v : Nat) : Option Version :=
  (getVersionIdx vt v).map (fun p => p.2)

/-- The decode target allocated by upgradeObj: a fresh value of the
exemplar's shape when an exemplar exists, else an attribute map. -/
def upgradeTarget (v : Version) : Value :=
  match v.Exemplar with
  | some ex => zeroValue ex
  | none => .vMap []

/-- upgradeObj's loop: `for vIdx > 0 { vIdx--; next := Versions[vIdx];
... }` — each step requires the next-newer version's upgrader and
replaces the object with its result. `v0v` is the version the object
was decoded at and `ov` the version read from the buffer (both appear
only in error messages). -/
def upgradeLoop (vt : VersionedType) (v0v ov : Nat) : Value → Nat →
    Except TypeError (Value × Bool)
  | obj, 0 => .ok (obj, true)
  | obj, Nat.succ vIdx =>
    match vt.Versions.get? vIdx with
    | none => .error ⟨"index out of range"⟩
    | some next =>
      match next.Upgrader with
      | none => .error ⟨"No upgrader for " ++ toString v0v ++ " -> " ++
          toString next.Version ++ " (object version " ++ toString ov ++ ")"⟩
      | some up =>
        match up obj with
        | .error e => .error ⟨"Upgrader error: " ++ e⟩
        | .ok obj2 => upgradeLoop vt v0v ov obj2 vIdx

/-- upgradeObj: find the object's version, decode the remaining bytes
into an exemplar-shaped value or an attribute map, then run the
upgrader chain up to the head of the versions list. -/
def upgradeObj (fuel : Nat) (vt : VersionedType) (version : Nat)
    (buf : List Nat) : Except TypeError (Value × Bool) :=
  match getVersionIdx vt version with
  | none => .error ⟨"Version not registered: " ++ toString version⟩
  | some (vIdx, v) =>
    match SafeDecodeField fuel (upgradeTarget v) v.Spec buf with
    | .error e => .error ⟨"Error decoding initial version " ++
        toString v.Version ++ ": " ++ e.Message⟩
    | .ok obj => upgradeLoop vt v.Version version obj vIdx

/-- DecodeObj: read the 2-byte version prefix; decode directly when it
matches the latest version, else delegate to the upgrade machinery.
The Go guard returns an error whenever the latest version lacks an
exemplar, which makes the `v.Exemplar == nil` disjunct of the target
selection below it unreachable. -/
def DecodeObj (fuel : Nat) (vt : VersionedType) (encObj : List Nat)
    (toMap : Bool) : Except TypeError (Value × Bool) :=
  match vt.Versions with
  | [] => .error ⟨"No versions registered for " ++ vt.Name⟩
  | v :: _ =>
    let p := readU16 encObj
    if v.Version ≠ p.1 then
      upgradeObj fuel vt p.1 p.2
    else if v.Exemplar.isNone then
      .error ⟨"Object version has no exemplar: " ++ toString p.1⟩
    else
      let target := if toMap || v.Exemplar.isNone then Value.vMap []
                    else zeroValue (v.Exemplar.getD .vNil)
      match SafeDecodeField fuel target v.Spec p.2 with
      | .error e => .error e
      | .ok obj => .ok (obj, false)

/-- EncodeObj: 2-byte big-endian number of the head (latest) version,
then the body encoded against that version's spec. -/
def EncodeObj (fuel : Nat) (vt : VersionedType) (obj : Value) :
    Except TypeError (List Nat) :=
  match vt.Versions with
  | [] => .error ⟨"No versions registered for " ++ vt.Name⟩
  | v :: _ =>
    match SafeEncodeField fuel obj v.Spec with
    | .error e => .error e
    | .ok body => .ok (u16be v.Version ++ body)

/-- DecodeInto: decode the body against the spec of the version named
in the prefix into the caller-supplied attribute map, then bind the
reserved key "_version" to that version number. No upgrader runs. -/
def DecodeInto (fuel : Nat) (vt : VersionedType) (encObj : List Nat)
    (obj : List (String × Value)) : Except TypeError (List (String × Value)) :=
  match vt.Versions with
  | [] => .error ⟨"No versions registered for " ++ vt.Name⟩
  | _ :: _ =>
    let p := readU16 encObj
    match getVersionIdx vt p.1 with
    | none => .error ⟨"Version not registered: " ++ toString p.1⟩
    | some (_, v) =>
      match SafeDecodeField fuel (.vMap obj) v.Spec p.2 with
      | .error e => .error e
      | .ok (.vMap m) => .ok (mapSet m "_version" (.vUint16 v.Version))
      | .ok _ => .error ⟨"map target produced a non-map value"⟩

/-- A version record with its upgrader removed. -/
def stripVersion (v : Version) : Version :=
  { v with Upgrader := none }

/-- A copy of a versioned type with every upgrader removed (used to
state that an operation never consults an upgrader). -/
def stripUpgraders (vt : VersionedType) : VersionedType :=
  { vt with Versions := vt.Versions.map stripVersion }

/-- Rendering of the claim text for the upgrade state machine: given
the chain of versions strictly above the decoded one in ascending
version order, walk it step by step; a step whose upgrader is absent
fails the whole decode with a no-upgrader error, otherwise the
object is replaced by the upgrader's return value; the final value is
returned with upgraded = true. -/
def upgradeChainSpec (v0v ov : Nat) : Value → List Version →
    Except TypeError (Value × Bool)
  | obj, [] => .ok (obj, true)
  | obj, next :: rest =>
    match next.Upgrader with
    | none => .error ⟨"No upgrader for " ++ toString v0v ++ " -> " ++
        toString next.Version ++ " (object version " ++ toString ov ++ ")"⟩
    | some up =>
      match up obj with
      | .error e => .error ⟨"Upgrader error: " ++ e⟩
      | .ok obj2 => upgradeChainSpec v0v ov obj2 rest

/-- Versions sorted strictly descending by version number
(invariant I6 maintained by AddVersion/AddVersionObj). -/
def versionsSortedDesc (l : List Version) : Prop :=
  List.Pairwise (fun a b => b.Version < a.Version) l

/-! ### The three-version upgrade scenario (the TestUpgrade test)

Local struct types st0 {Name string}, st1 {Name string; Age uint16},
st2 {Age uint16; Moniker string} registered as versions 0, 1, 2 of one
logical type; the v0→v1 upgrader adds Age = 32 (a Go int) and the
v1→v2 upgrader renames Name to Moniker. As in the test, the exemplars
of the non-latest versions are nil, so the older decode target is an
attribute map, which is what the upgraders assert. Struct identity
keys are PkgPath + "/" + type name. -/

def st0Name : String := "github.com/brendonh/spack/st0"
def st1Name : String := "github.com/brendonh/spack/st1"
def st2Name : String := "github.com/brendonh/spack/st2"

def st0Body : fieldType := .mk kStruct [.mk kString [] "Name" ""] "" ""
def st1Body : fieldType :=
  .mk kStruct [.mk kString [] "Name" "", .mk kUint16 [] "Age" ""] "" ""
def st2Body : fieldType :=
  .mk kStruct [.mk kUint16 [] "Age" "", .mk kString [] "Moniker" ""] "" ""

def spec0 : TypeSpec :=
  ⟨[(st0Name, st0Body)], .mk STRUCT_REFERENCE [] "" st0Name⟩
def spec1 : TypeSpec :=
  ⟨[(st1Name, st1Body)], .mk STRUCT_REFERENCE [] "" st1Name⟩
def spec2 : TypeSpec :=
  ⟨[(st2Name, st2Body)], .mk STRUCT_REFERENCE [] "" st2Name⟩

/-- The v0→v1 upgrader from the test: `obj["Age"] = 32`. The Go
function asserts its argument to an attribute map and panics
(crashing) otherwise; the embedding reports that as an error. -/
def st0to1 : UpgradeFunc := fun obj =>
  match obj with
  | .vMap m => .ok (.vMap (mapSet m "Age" (.vInt 32)))
  | _ => .error "interface conversion: not a map"

/-- The v1→v2 upgrader from the test: `obj["Moniker"] = obj["Name"];
delete(obj, "Name")`. -/
def st1to2 : UpgradeFunc := fun obj =>
  match obj with
  | .vMap m =>
    .ok (.vMap (mapDelete (mapSet m "Moniker" ((mapLookup m "Name").getD .vNil)) "Name"))
  | _ => .error "interface conversion: not a map"

/-- Version 0 as first registered (exemplar st0{}). -/
def ver0Full : Version := ⟨0, spec0, some (.vStruct st0Name [.vString ""]), none⟩

/-- Version 0 after the test clears its exemplar. -/
def ver0 : Version := ⟨0, spec0, none, none⟩

/-- Version 1 after the test clears its exemplar; carries the v0→v1
upgrader. -/
def ver1 : Version := ⟨1, spec1, none, some st0to1⟩

/-- Version 2 (latest): exemplar st2{}, carries the v1→v2 upgrader. -/
def ver2 : Version := ⟨2, spec2, some (.vStruct st2Name [.vUint16 0, .vString ""]), some st1to2⟩

/-- The registered type right after v0 registration ("test" gets tag 2
on a fresh TypeSet because _type holds tag 1). -/
def scenarioVt0 : VersionedType := ⟨"test", 2, [ver0Full], true⟩

/-- The fully registered type with exemplars cleared as in the test. -/
def scenarioVt : VersionedType := ⟨"test", 2, [ver2, ver1, ver0], true⟩

/-- The same type with the v1→v2 upgrader missing. -/
def scenarioVtNoUp : VersionedType :=
  ⟨"test", 2, [⟨2, spec2, some (.vStruct st2Name [.vUint16 0, .vString ""]), none⟩, ver1, ver0], true⟩

/-- The object encoded at version 0: st0{Name: "Brend"}. -/
def scenarioObj : Value := .vStruct st0Name [.vString "Brend"]

/-- The v0 encoding of st0 {Name: "Brend"}: version prefix 00 00, then
varint length 5 and the UTF-8 bytes of "Brend". -/
def scenarioEnc : List Nat := [0, 0, 5, 66, 114, 101, 110, 100]

/-- The attribute map produced by the upgrade chain. -/
def scenarioFinal : List (String × Value) :=
  [("Age", .vInt 32), ("Moniker", .vString "Brend")]

/-! ### Supporting lemmas -/

/-- binary.Write then binary.Read of a uint16 version prefix round-trips
and leaves exactly the body. -/
theorem readU16_u16be (w : Nat) (body : List Nat) (hw : w < 65536) :
    readU16 (u16be w ++ body) = (w, body) := by
  simp only [u16be, List.cons_append, List.nil_append, readU16, Prod.mk.injEq]
  refine ⟨by omega, ?_⟩
  try rfl
  try trivial

/-- sort.Search's loop invariant: on a monotone predicate it returns
the least index at which the predicate holds (or the right endpoint),
provided the iteration bound covers the initial width. -/
theorem sortSearchGo_spec (f : Nat → Bool) (n : Nat)
    (mono : ∀ a b, a ≤ b → b < n → f a = true → f b = true) :
    ∀ iters i j, j - i ≤ iters → i ≤ j → j ≤ n →
      (∀ k, k < i → f k = false) →
      (∀ k, j ≤ k → k < n → f k = true) →
      i ≤ sortSearchGo f iters i j ∧ sortSearchGo f iters i j ≤ j ∧
      (∀ k, k < sortSearchGo f iters i j → f k = false) ∧
      (sortSearchGo f iters i j < n → f (sortSearchGo f iters i j) = true) := by
  intro iters
  induction iters with
  | zero =>
    intro i j hd hij hjn hP hQ
    have hij' : i = j := by omega
    subst hij'
    exact ⟨le_rfl, le_rfl, hP, fun h => hQ i le_rfl h⟩
  | succ d ih =>
    intro i j hd hij hjn hP hQ
    show i ≤ sortSearchGo f (d + 1) i j ∧ _
    rw [show sortSearchGo f (d + 1) i j =
        (if i < j then
          if f ((i + j) / 2) then sortSearchGo f d i ((i + j) / 2)
          else sortSearchGo f d ((i + j) / 2 + 1) j
         else i) from rfl]
    by_cases h : i < j
    · rw [if_pos h]
      have hmi : i ≤ (i + j) / 2 := by omega
      have hmj : (i + j) / 2 < j := by omega
      by_cases hfm : f ((i + j) / 2) = true
      · rw [if_pos hfm]
        have hrec := ih i ((i + j) / 2) (by omega) hmi (by omega) hP
          (fun k hk hkn => mono ((i + j) / 2) k hk hkn hfm)
        exact ⟨hrec.1, le_trans hrec.2.1 (by omega), hrec.2.2⟩
      · rw [if_neg hfm]
        have hfm' : f ((i + j) / 2) = false := by
          cases hfk : f ((i + j) / 2)
          · rfl
          · exact absurd hfk hfm
        have hP' : ∀ k, k < (i + j) / 2 + 1 → f k = false := by
          intro k hk
          by_cases hki : k < i
          · exact hP k hki
          · cases hfk : f k
            · rfl
            · have := mono k ((i + j) / 2) (by omega) (by omega) hfk
              rw [this] at hfm'
              cases hfm'
        have hrec := ih ((i + j) / 2 + 1) j (by omega) (by omega) hjn hP' hQ
        exact ⟨le_trans (by omega) hrec.1, hrec.2.1, hrec.2.2⟩
    · rw [if_neg h]
      have hij' : i = j := by omega
      subst hij'
      exact ⟨le_rfl, le_rfl, hP, fun hlt => hQ i le_rfl hlt⟩

/-- sort.Search over [0, n) on a monotone predicate. -/
theorem sortSearch_spec (f : Nat → Bool) (n : Nat)
    (mono : ∀ a b, a ≤ b → b < n → f a = true → f b = true) :
    sortSearch n f ≤ n ∧
    (∀ k, k < sortSearch n f → f k = false) ∧
    (sortSearch n f < n → f (sortSearch n f) = true) := by
  have h := sortSearchGo_spec f n mono n 0 n (by omega) (by omega) le_rfl
    (fun k hk => absurd hk (Nat.not_lt_zero k))
    (fun k h1 h2 => absurd (lt_of_le_of_lt h1 h2) (lt_irrefl n))
  exact ⟨h.2.1, h.2.2⟩

/-- In a strictly descending versions list, later entries carry
strictly smaller version numbers. -/
theorem pairwise_version_lt {l : List Version} (hs : versionsSortedDesc l)
    {a b : Nat} (hab : a < b) (hb : b < l.length) :
    (l.get ⟨b, hb⟩).Version < (l.get ⟨a, lt_trans hab hb⟩).Version := by
  exact List.pairwise_iff_get.mp hs ⟨a, lt_trans hab hb⟩ ⟨b, hb⟩ hab

/-- The getVersion search predicate is monotone on a sorted list. -/
theorem getVersionCmp_mono (vt : VersionedType) (w : Nat)
    (hs : versionsSortedDesc vt.Versions) :
    ∀ a b, a ≤ b → b < vt.Versions.length →
      getVersionCmp vt w a = true → getVersionCmp vt w b = true := by
  intro a b hab hb hfa
  have ha : a < vt.Versions.length := lt_of_le_of_lt hab hb
  unfold getVersionCmp at hfa ⊢
  rw [List.get?_eq_get ha] at hfa
  rw [List.get?_eq_get hb]
  simp only [decide_eq_true_eq] at hfa ⊢
  rcases eq_or_lt_of_le hab with rfl | hab'
  · exact hfa
  · have := pairwise_version_lt hs hab' hb
    omega

/-- getVersion finds exactly the slot of a version present in a
sorted-descending versions list. -/
theorem getVersionIdx_of_get? (vt : VersionedType)
    (hs : versionsSortedDesc vt.Versions) (i : Nat) (v : Version)
    (hget : vt.Versions.get? i = some v) :
    getVersionIdx vt v.Version = some (i, v) := by
  have hi : i < vt.Versions.length := by
    by_contra hni
    rw [List.get?_eq_none.mpr (by omega)] at hget
    cases hget
  have hspec := sortSearch_spec (getVersionCmp vt v.Version) vt.Versions.length
    (getVersionCmp_mono vt v.Version hs)
  set r := sortSearch vt.Versions.length (getVersionCmp vt v.Version) with hr
  have hcmpi : getVersionCmp vt v.Version i = true := by
    unfold getVersionCmp
    rw [hget]
    simp
  have hri : r ≤ i := by
    by_contra hlt
    rw [hspec.2.1 i (by omega)] at hcmpi
    cases hcmpi
  have hreq : r = i := by
    rcases eq_or_lt_of_le hri with h | h
    · exact h
    · exfalso
      have hrn : r < vt.Versions.length := lt_trans h hi
      have hcr := hspec.2.2 hrn
      unfold getVersionCmp at hcr
      rw [List.get?_eq_get hrn] at hcr
      simp only [decide_eq_true_eq] at hcr
      have hgi : vt.Versions.get ⟨i, hi⟩ = v := by
        rw [List.get?_eq_get hi] at hget
        exact Option.some.inj hget
      have hlt2 := pairwise_version_lt hs h hi
      rw [hgi] at hlt2
      have : (vt.Versions.get ⟨r, lt_trans h hi⟩).Version =
          (vt.Versions.get ⟨r, hrn⟩).Version := rfl
      omega
  unfold getVersionIdx
  rw [← hr, hreq]
  have hget' : vt.Versions[i]? = some v := by
    rw [← List.get?_eq_getElem?]
    exact hget
  simp [hget']

/-- getVersion returns nothing when the version number is absent. -/
theorem getVersionIdx_none (vt : VersionedType) (w : Nat)
    (hab : ∀ ver ∈ vt.Versions, ver.Version ≠ w) :
    getVersionIdx vt w = none := by
  unfold getVersionIdx
  cases hg : vt.Versions.get? (sortSearch vt.Versions.length (getVersionCmp vt w)) with
  | none =>
    have hg' : vt.Versions[sortSearch vt.Versions.length (getVersionCmp vt w)]? = none := by
      simpa using hg
    simp [hg']
  | some ver =>
    have hmem : ver ∈ vt.Versions := List.get?_mem hg
    have hne : ver.Version ≠ w := hab ver hmem
    have hg' : vt.Versions[sortSearch vt.Versions.length (getVersionCmp vt w)]? = some ver := by
      simpa using hg
    simp [hg', hne]

/-- The registry loop walks the descending-indexed versions list
exactly as the spec's ascending chain of versions above the decoded
one: the reversed take is that ascending chain. -/
theorem upgradeLoop_eq_chainSpec (vt : VersionedType) (v0v ov : Nat) :
    ∀ i obj, i ≤ vt.Versions.length →
      upgradeLoop vt v0v ov obj i =
        upgradeChainSpec v0v ov obj ((vt.Versions.take i).reverse) := by
  intro i
  induction i with
  | zero => intro obj _; simp [upgradeLoop, upgradeChainSpec]
  | succ n ih =>
    intro obj h
    have hn : n < vt.Versions.length := by omega
    have hg : vt.Versions[n]? = some (vt.Versions.get ⟨n, hn⟩) := by
      simpa using List.get?_eq_get (l := vt.Versions) hn
    have htake : (vt.Versions.take (n + 1)).reverse =
        vt.Versions.get ⟨n, hn⟩ :: (vt.Versions.take n).reverse := by
      rw [List.take_succ, hg]
      simp
    rw [htake]
    cases hu : vt.Versions[n].Upgrader with
    | none => simp [upgradeLoop, upgradeChainSpec, hg, hu]
    | some up =>
      cases hap : up obj with
      | error e => simp [upgradeLoop, upgradeChainSpec, hg, hu, hap]
      | ok obj2 =>
        simp only [upgradeLoop, upgradeChainSpec, List.get?_eq_getElem?, hg,
          List.get_eq_getElem, hu, hap]
        exact ih obj2 (by omega)

/-- Looking up a key just set in an attribute map (replacement arm). -/
theorem mapLookup_map_subst (k : String) (v : Value) :
    ∀ m : List (String × Value), m.any (fun p => p.1 == k) = true →
      mapLookup (m.map (fun p => if p.1 == k then (k, v) else p)) k = some v := by
  intro m
  induction m with
  | nil => intro h; cases h
  | cons p rest ih =>
    intro h
    by_cases hp : p.1 == k
    · simp [mapLookup, hp]
    · simp only [List.any_cons, hp, Bool.false_or] at h
      simp only [List.map_cons, hp, if_false, Bool.false_eq_true]
      rw [show mapLookup (p :: rest.map (fun p => if p.1 == k then (k, v) else p)) k =
          mapLookup (rest.map (fun p => if p.1 == k then (k, v) else p)) k from by
        simp [mapLookup, hp]]
      exact ih h

/-- Looking up a key just set in an attribute map (append arm). -/
theorem mapLookup_append_self (k : String) (v : Value) :
    ∀ m : List (String × Value), m.any (fun p => p.1 == k) = false →
      mapLookup (m ++ [(k, v)]) k = some v := by
  intro m
  induction m with
  | nil => intro _; simp [mapLookup]
  | cons p rest ih =>
    intro h
    simp only [List.any_cons, Bool.or_eq_false_iff] at h
    simp only [List.cons_append, mapLookup, h.1, Bool.false_eq_true, if_false]
    exact ih h.2

/-- Go map assignment makes the key readable with the stored value. -/
theorem mapLookup_mapSet_self (m : List (String × Value)) (k : String) (v : Value) :
    mapLookup (mapSet m k v) k = some v := by
  unfold mapSet
  cases hany : m.any (fun p => p.1 == k) with
  | true => simp only [hany, if_true]; exact mapLookup_map_subst k v m hany
  | false => simp only [hany, Bool.false_eq_true, if_false]; exact mapLookup_append_self k v m hany

theorem stripUpgraders_Versions (vt : VersionedType) :
    (stripUpgraders vt).Versions = vt.Versions.map stripVersion := rfl

theorem stripUpgraders_Name (vt : VersionedType) :
    (stripUpgraders vt).Name = vt.Name := rfl

/-- Removing upgraders leaves the version search unchanged except for
the upgrader field of the record found. -/
theorem getVersionCmp_strip (vt : VersionedType) (w : Nat) :
    getVersionCmp (stripUpgraders vt) w = getVersionCmp vt w := by
  funext i
  unfold getVersionCmp
  rw [stripUpgraders_Versions]
  simp only [List.get?_eq_getElem?, List.getElem?_map]
  cases vt.Versions[i]? <;> rfl

/-- getVersion on the upgrader-stripped type. -/
theorem getVersionIdx_strip (vt : VersionedType) (w : Nat) :
    getVersionIdx (stripUpgraders vt) w =
      (getVersionIdx vt w).map (fun p => (p.1, stripVersion p.2)) := by
  have hlen : (stripUpgraders vt).Versions.length = vt.Versions.length := by
    rw [stripUpgraders_Versions]
    simp
  unfold getVersionIdx
  rw [hlen, getVersionCmp_strip, stripUpgraders_Versions]
  simp only [List.get?_eq_getElem?, List.getElem?_map]
  cases vt.Versions[sortSearch vt.Versions.length (getVersionCmp vt w)]? with
  | none => rfl
  | some ver =>
    by_cases hv : ver.Version = w
    · simp [hv, stripVersion]
    · simp [hv, stripVersion]

/-- DecodeInto never consults an upgrader: deleting all of them does
not change its result. -/
theorem DecodeInto_strip (fuel : Nat) (vt : VersionedType) (enc : List Nat)
    (m : List (String × Value)) :
    DecodeInto fuel (stripUpgraders vt) enc m = DecodeInto fuel vt enc m := by
  simp only [DecodeInto, stripUpgraders_Versions, stripUpgraders_Name]
  rw [getVersionIdx_strip vt (readU16 enc).1]
  cases hv : vt.Versions with
  | nil => rfl
  | cons v rest =>
    simp only [List.map_cons]
    cases getVersionIdx vt (readU16 enc).1 with
    | none => rfl
    | some p => rfl

/-- The head of a sorted-descending versions list carries the highest
version number. -/
theorem head_version_max (v : Version) (rest : List Version)
    (hs : versionsSortedDesc (v :: rest)) :
    ∀ ver ∈ v :: rest, ver.Version ≤ v.Version := by
  intro ver hmem
  rcases List.mem_cons.mp hmem with rfl | h
  · exact le_rfl
  · have := (List.pairwise_cons.mp hs).1 ver h
    omega

/-! ### Claim theorems -/

/-- The spec the codec tests build with kindSpec(reflect.Bool): an
empty struct table and a bare bool node. -/
def boolSpec : TypeSpec := ⟨[], .mk kBool [] "" ""⟩

/-- The C1 counterexample type: its single (hence latest) version has
no exemplar. -/
def noExemplarVt : VersionedType := ⟨"test", 2, [ver0], false⟩

/-- C1 (counterexample): decode_obj on a buffer whose prefix equals the
latest version, where that version has no exemplar and as_map is set,
fails with "Object version has no exemplar" instead of succeeding as a
decode into an attribute map with upgraded = false. -/
theorem C1_counterexample :
    DecodeObj 10 noExemplarVt scenarioEnc true =
      .error ⟨"Object version has no exemplar: 0"⟩ := rfl

/-- C1 (amended): for decode_obj on a buffer whose 2-byte version
prefix equals the latest registered version: when the latest version
has no exemplar the decode fails with an "Object version has no
exemplar" error even when as_map is set; when an exemplar exists, the
codec decodes the body into an attribute map if as_map is set and into
a fresh value of the exemplar's shape otherwise, returning
upgraded = false. -/
theorem C1_DecodeObj_latest (fuel : Nat) (vt : VersionedType) (v : Version)
    (rest : List Version) (body : List Nat) (toMap : Bool)
    (hv : vt.Versions = v :: rest) (hw : v.Version < 65536) :
    (v.Exemplar = none →
      DecodeObj fuel vt (u16be v.Version ++ body) toMap =
        .error ⟨"Object version has no exemplar: " ++ toString v.Version⟩) ∧
    (∀ ex, v.Exemplar = some ex →
      DecodeObj fuel vt (u16be v.Version ++ body) toMap =
        (SafeDecodeField fuel (if toMap then .vMap [] else zeroValue ex)
          v.Spec body).map (fun o => (o, false))) := by
  constructor
  · intro hex
    simp only [DecodeObj, hv, readU16_u16be v.Version body hw, hex]
    simp
  · intro ex hex
    simp only [DecodeObj, hv, readU16_u16be v.Version body hw, hex]
    simp only [ne_eq, not_true_eq_false, if_false, Option.isNone_some,
      Bool.false_eq_true, Option.getD_some, Bool.or_false]
    cases SafeDecodeField fuel (if toMap then Value.vMap [] else zeroValue ex)
        v.Spec body with
    | error e => rfl
    | ok o => rfl

/-- C1 (witness). -/
def c1WitnessVt : VersionedType := ⟨"test", 2, [ver0Full], false⟩

theorem C1_witness :
    DecodeObj 10 c1WitnessVt (u16be 0 ++ [5, 66, 114, 101, 110, 100]) true =
      (SafeDecodeField 10 (Value.vMap []) spec0 [5, 66, 114, 101, 110, 100]).map
        (fun o => (o, false)) := by
  have h := (C1_DecodeObj_latest 10 c1WitnessVt ver0Full []
    [5, 66, 114, 101, 110, 100] true rfl (by decide)).2
    (.vStruct st0Name [.vString ""]) rfl
  exact h

/-- C2: when decode_obj reads a strictly older registered version, the
upgrade path decodes the body against that version's spec (into an
exemplar-shaped value when an exemplar exists, else an attribute map)
and then behaves exactly as the spec's ascending upgrader chain over
the versions above it: a missing step fails the whole decode with a
"No upgrader" error and otherwise each upgrader's return value
replaces the object, the final one returned with upgraded = true.
In the three-version scenario (v0 {Name}, v1 adds Age = 32, v2 renames
Name to Moniker), decoding a v0 encoding of {Name: "Brend"} yields
Age = 32 and Moniker = "Brend" with upgraded = true. -/
theorem C2_upgrade_chain (fuel : Nat) (vt : VersionedType) (w : Nat)
    (body : List Nat) (i : Nat) (v : Version) (obj0 : Value) (toMap : Bool)
    (hs : versionsSortedDesc vt.Versions) (hw : w < 65536) (hi : 0 < i)
    (hget : vt.Versions.get? i = some v) (hvw : v.Version = w)
    (hdec : SafeDecodeField fuel (upgradeTarget v) v.Spec body = .ok obj0) :
    (∀ (vt' : VersionedType) (v0v ov j : Nat) (obj' : Value),
      j ≤ vt'.Versions.length →
      upgradeLoop vt' v0v ov obj' j =
        upgradeChainSpec v0v ov obj' ((vt'.Versions.take j).reverse)) ∧
    DecodeObj fuel vt (u16be w ++ body) toMap =
      upgradeChainSpec v.Version w obj0 ((vt.Versions.take i).reverse) ∧
    EncodeObj 10 scenarioVt0 scenarioObj = .ok scenarioEnc ∧
    DecodeObj 10 scenarioVt scenarioEnc false = .ok (.vMap scenarioFinal, true) ∧
    mapLookup scenarioFinal "Age" = some (.vInt 32) ∧
    mapLookup scenarioFinal "Moniker" = some (.vString "Brend") ∧
    DecodeObj 10 scenarioVtNoUp scenarioEnc false =
      .error ⟨"No upgrader for 0 -> 2 (object version 0)"⟩ := by
  refine ⟨fun vt' v0v ov j obj' hj => upgradeLoop_eq_chainSpec vt' v0v ov j obj' hj,
    ?_, rfl, rfl, rfl, rfl, rfl⟩
  have hi' : i < vt.Versions.length := by
    by_contra hni
    rw [List.get?_eq_none.mpr (by omega)] at hget
    cases hget
  obtain ⟨v0, rest, hv⟩ : ∃ v0 rest, vt.Versions = v0 :: rest := by
    cases hvv : vt.Versions with
    | nil => rw [hvv] at hi'; simp at hi'
    | cons a b => exact ⟨a, b, rfl⟩
  have hg0 : vt.Versions.get? 0 = some v0 := by rw [hv]; rfl
  have hneq : v0.Version ≠ w := by
    have hlt := pairwise_version_lt hs hi hi'
    have hv0 : vt.Versions.get ⟨0, lt_trans hi hi'⟩ = v0 := by
      rw [List.get?_eq_get (lt_trans hi hi')] at hg0
      exact Option.some.inj hg0
    have hvi : vt.Versions.get ⟨i, hi'⟩ = v := by
      rw [List.get?_eq_get hi'] at hget
      exact Option.some.inj hget
    rw [hv0, hvi, hvw] at hlt
    omega
  have hgv : getVersionIdx vt w = some (i, v) := by
    have := getVersionIdx_of_get? vt hs i v hget
    rw [hvw] at this
    exact this
  simp only [DecodeObj, hv, readU16_u16be w body hw]
  rw [if_pos hneq]
  simp only [upgradeObj, hgv, hdec]
  have hloop := upgradeLoop_eq_chainSpec vt v.Version w i obj0 (le_of_lt hi')
  rw [hv] at hloop
  exact hloop

/-- C2 (witness): the upgrade-path conclusion at the scenario inputs. -/
theorem C2_witness :
    DecodeObj 10 scenarioVt (u16be 0 ++ [5, 66, 114, 101, 110, 100]) false =
      upgradeChainSpec 0 0 (.vMap [("Name", .vString "Brend")])
        ((scenarioVt.Versions.take 2).reverse) := by
  have h := (C2_upgrade_chain 10 scenarioVt 0 [5, 66, 114, 101, 110, 100] 2 ver0
    (.vMap [("Name", .vString "Brend")]) false
    (by simp [versionsSortedDesc, scenarioVt, ver0, ver1, ver2, List.pairwise_cons])
    (by norm_num) (by norm_num) rfl rfl rfl).2.1
  exact h

/-- C3: encode_obj errors when no versions are registered; otherwise
its output begins with 2 bytes equal to the latest (highest) registered
version number in big-endian, followed by the body encoded against
that latest version's spec. -/
theorem C3_EncodeObj_layout (fuel : Nat) (vt : VersionedType) (obj : Value) :
    (vt.Versions = [] →
      EncodeObj fuel vt obj = .error ⟨"No versions registered for " ++ vt.Name⟩) ∧
    (∀ v rest enc, vt.Versions = v :: rest → versionsSortedDesc vt.Versions →
      EncodeObj fuel vt obj = .ok enc →
      ∃ body, SafeEncodeField fuel obj v.Spec = .ok body ∧
        enc = u16be v.Version ++ body ∧
        ∀ ver ∈ vt.Versions, ver.Version ≤ v.Version) := by
  constructor
  · intro h
    simp [EncodeObj, h]
  · intro v rest enc hv hs henc
    have hmax : ∀ ver ∈ vt.Versions, ver.Version ≤ v.Version := by
      rw [hv]
      exact head_version_max v rest (hv ▸ hs)
    simp only [EncodeObj, hv] at henc
    cases hsf : SafeEncodeField fuel obj v.Spec with
    | error e => rw [hsf] at henc; cases henc
    | ok body =>
      rw [hsf] at henc
      refine ⟨body, rfl, ?_, hmax⟩
      cases henc
      rfl

/-- C3 (witness) input: one registered version of a bool schema. -/
def c3Vt : VersionedType := ⟨"test", 2, [⟨0, boolSpec, some (.vBool false), none⟩], false⟩

theorem C3_witness :
    ∃ body, SafeEncodeField 1 (.vBool true) boolSpec = .ok body ∧
      ([0, 0, 1] : List Nat) = u16be 0 ++ body ∧
      ∀ ver ∈ c3Vt.Versions, ver.Version ≤ 0 := by
  have h := (C3_EncodeObj_layout 1 c3Vt (.vBool true)).2
    ⟨0, boolSpec, some (.vBool false), none⟩ [] [0, 0, 1] rfl
    (by simp [versionsSortedDesc, c3Vt]) rfl
  exact h

/-- C4: the bool codec encodes true as the single byte 0x01 and false
as 0x00; decoding byte 0x00 yields false, 0x01 yields true, and any
other byte value is a decode error surfaced as the typed error by the
safe wrapper. -/
theorem C4_bool_codec (fuel : Nat) (x : Bool) (rest : List Nat) (c : Nat) :
    SafeEncodeField (fuel + 1) (.vBool true) boolSpec = .ok [1] ∧
    SafeEncodeField (fuel + 1) (.vBool false) boolSpec = .ok [0] ∧
    SafeDecodeField (fuel + 1) (.vBool x) boolSpec (0 :: rest) = .ok (.vBool false) ∧
    SafeDecodeField (fuel + 1) (.vBool x) boolSpec (1 :: rest) = .ok (.vBool true) ∧
    (2 ≤ c →
      SafeDecodeField (fuel + 1) (.vBool x) boolSpec (c :: rest) =
        .error ⟨"Decoding failed: " ++ ("Bool byte neither 0 nor 1: " ++ toString c)⟩) := by
  refine ⟨rfl, rfl, rfl, rfl, ?_⟩
  intro hc
  obtain ⟨n, rfl⟩ : ∃ n, c = n + 2 := ⟨c - 2, by omega⟩
  rfl

theorem C4_witness :
    SafeDecodeField 1 (.vBool false) boolSpec [2] =
      .error ⟨"Decoding failed: " ++ ("Bool byte neither 0 nor 1: " ++ toString 2)⟩ := by
  exact (C4_bool_codec 0 false [] 2).2.2.2.2 (by norm_num)

/-- C5: decode_into decodes the body against the spec of the version
named in the 2-byte prefix into the caller-supplied attribute map,
never invokes any upgrader, binds the reserved key "_version" to the
version number observed in the prefix after a successful decode, and
fails with "Version not registered" when that version is absent. -/
theorem C5_DecodeInto (fuel : Nat) (vt : VersionedType) (w : Nat)
    (body : List Nat) (m : List (String × Value))
    (hs : versionsSortedDesc vt.Versions) (hw : w < 65536)
    (hne : vt.Versions ≠ []) :
    ((∀ ver ∈ vt.Versions, ver.Version ≠ w) →
      DecodeInto fuel vt (u16be w ++ body) m =
        .error ⟨"Version not registered: " ++ toString w⟩) ∧
    (∀ i v m', vt.Versions.get? i = some v → v.Version = w →
      SafeDecodeField fuel (.vMap m) v.Spec body = .ok (.vMap m') →
      DecodeInto fuel vt (u16be w ++ body) m =
        .ok (mapSet m' "_version" (.vUint16 w)) ∧
      mapLookup (mapSet m' "_version" (.vUint16 w)) "_version" =
        some (.vUint16 w)) ∧
    DecodeInto fuel (stripUpgraders vt) (u16be w ++ body) m =
      DecodeInto fuel vt (u16be w ++ body) m := by
  obtain ⟨v0, rest, hv⟩ : ∃ v0 rest, vt.Versions = v0 :: rest := by
    cases hvv : vt.Versions with
    | nil => exact absurd hvv hne
    | cons a b => exact ⟨a, b, rfl⟩
  refine ⟨?_, ?_, DecodeInto_strip fuel vt (u16be w ++ body) m⟩
  · intro hab
    simp only [DecodeInto, hv, readU16_u16be w body hw]
    rw [getVersionIdx_none vt w hab]
  · intro i v m' hget hvw hdec
    have hgv : getVersionIdx vt w = some (i, v) := by
      have := getVersionIdx_of_get? vt hs i v hget
      rw [hvw] at this
      exact this
    constructor
    · simp only [DecodeInto, hv, readU16_u16be w body hw, hgv, hdec, hvw]
    · exact mapLookup_mapSet_self m' "_version" (.vUint16 w)

theorem C5_witness :
    DecodeInto 10 scenarioVt (u16be 0 ++ [5, 66, 114, 101, 110, 100]) [] =
      .ok (mapSet [("Name", Value.vString "Brend")] "_version" (.vUint16 0)) ∧
    mapLookup (mapSet [("Name", Value.vString "Brend")] "_version" (.vUint16 0))
      "_version" = some (.vUint16 0) := by
  exact (C5_DecodeInto 10 scenarioVt 0 [5, 66, 114, 101, 110, 100] []
    (by simp [versionsSortedDesc, scenarioVt, ver0, ver1, ver2, List.pairwise_cons])
    (by norm_num) (by simp [scenarioVt])).2.1 2 ver0
    [("Name", .vString "Brend")] rfl rfl rfl

end Spack
